import Mathlib

/-!
Verification of the heap-allocator core and the narrow-phase dispatch lookup of
the repository (a ReactPhysics3D fork).

The embedding follows the source where the source is available:

* `MemoryUnitHeader` and its constructor are taken from
  `src/include/reactphysics3d/memory/HeapAllocator.h`.
* `selectAlgorithm` is taken from the dispatch translation unit
  (`src/unnamed/part_000`, `DefaultCollisionDispatch::selectAlgorithm`).

The bodies of the `HeapAllocator` methods (`allocate`, `release`, `reserve`,
`splitMemoryUnit`, `mergeUnits`, `addToFreeUnits`, `removeFromFreeUnits`) are
declared but not defined in the source excerpt, so they are modelled from the
specification, as an arena of units addressed by stable identifiers (the
reimplementation shape the specification itself prescribes in its design
notes): the Unit List is a Lean list in address order, so the
`previousUnit`/`nextUnit` links and their reciprocal updates are implicit in
list adjacency, and the Free List is a list of unit identifiers whose head is
the fixed search head.  Machine addresses are abstracted away, hence the
payload size available after aligning a would-be return address is the stored
payload size itself.
-/

namespace RP3D

/-- Size in bytes of the `MemoryUnitHeader` struct, `sizeof(MemoryUnitHeader)`
in the source: four pointers, a `size_t` and two `bool`s, padded, on an LP64
platform.  The development only relies on it being a fixed constant; a
concrete value is needed so that scenarios can be executed. -/
def sizeofMemoryUnitHeader : Nat := 48

/-- Header of a memory unit, from `HeapAllocator.h` lines 54-91.  The raw
pointers of the source are modelled as optional unit identifiers. -/
structure MemoryUnitHeader where
  previousUnit : Option Nat
  nextUnit : Option Nat
  previousFreeUnit : Option Nat
  nextFreeUnit : Option Nat
  size : Nat
  isNextContiguousMemory : Bool
  isAllocated : Bool := false
deriving DecidableEq

/-- The `MemoryUnitHeader` constructor from `HeapAllocator.h` lines 83-89: it
initialises every field except `isAllocated`, which keeps its default member
initialiser `false` (line 79).  The source also asserts `size > 0`; the
assertion does not alter the constructed value. -/
def MemoryUnitHeader.make (size : Nat) (previousUnit nextUnit previousFreeUnit nextFreeUnit : Option Nat)
    (isNextContiguousMemory : Bool) : MemoryUnitHeader :=
  { previousUnit := previousUnit, nextUnit := nextUnit, previousFreeUnit := previousFreeUnit,
    nextFreeUnit := nextFreeUnit, size := size, isNextContiguousMemory := isNextContiguousMemory }

/-- A memory unit of the arena model: one element of the Unit List.  The
address-order links of `MemoryUnitHeader` are implicit in the position of the
unit inside the Unit List, and the free-list links are implicit in the
position of its identifier inside the Free List. -/
structure HeapUnit where
  uid : Nat
  size : Nat
  isNextContiguousMemory : Bool
  isAllocated : Bool
deriving DecidableEq

/-- Modelled from the spec: a freshly created unit (created by `reserve` or by
`splitMemoryUnit`) carries a given payload size and contiguity flag and begins
life free, exactly as a newly constructed `MemoryUnitHeader` does. -/
def HeapUnit.make (uid size : Nat) (isNextContiguousMemory : Bool) : HeapUnit :=
  { uid := uid, size := size, isNextContiguousMemory := isNextContiguousMemory,
    isAllocated := false }

/-- State of the `HeapAllocator`: the Unit List in address order, the Free
List as the list of identifiers of free units (head = `mFreeUnits`), a counter
producing fresh unit identifiers, the total number of bytes obtained from the
base allocator (payloads plus headers), and the debug allocate/release call
counters. -/
structure HeapState where
  units : List HeapUnit
  freeList : List Nat
  uidCounter : Nat
  reservedBytes : Nat
  nbAlloc : Nat
  nbRelease : Nat
deriving DecidableEq

/-- Failure modes of the allocator interface, from the error-handling design
of the spec. -/
inductive AllocFault where
  | invalidArgument
  | invalidPointer
  | sizeMismatch
  | outOfMemory
deriving DecidableEq

/-- The heap allocator with no memory reserved yet. -/
def emptyHeap : HeapState :=
  { units := [], freeList := [], uidCounter := 0, reservedBytes := 0, nbAlloc := 0,
    nbRelease := 0 }

/-- Look up a unit of the Unit List by its identifier (the model of following
a unit pointer). -/
def getUnit (uid : Nat) (st : HeapState) : Option HeapUnit :=
  st.units.find? (fun u => u.uid == uid)

/-- Modelled from the spec: `addToFreeUnits` links a unit at the head of the
Free List (the fixed external head reference). -/
def addToFreeUnits (uid : Nat) (freeList : List Nat) : List Nat :=
  uid :: freeList

/-- Modelled from the spec: `removeFromFreeUnits` unlinks a unit from the Free
List, handling the head/tail boundary cases. -/
def removeFromFreeUnits (uid : Nat) (freeList : List Nat) : List Nat :=
  freeList.filter (fun x => x != uid)

/-- Identifier of the unit that follows the unit `uid` in the Unit List
(follow the `nextUnit` link). -/
def unitAfter (uid : Nat) : List HeapUnit → Option Nat
  | [] => none
  | a :: rest =>
    match rest with
    | [] => none
    | b :: _ => if a.uid = uid then some b.uid else unitAfter uid rest

/-- Identifier of the unit that precedes the unit `uid` in the Unit List
(follow the `previousUnit` link). -/
def unitBefore (uid : Nat) : List HeapUnit → Option Nat
  | [] => none
  | a :: rest =>
    match rest with
    | [] => none
    | b :: _ => if b.uid = uid then some a.uid else unitBefore uid rest

/-- Replace the allocation flag of the unit `uid` inside the Unit List. -/
def setAllocated (uid : Nat) (b : Bool) (l : List HeapUnit) : List HeapUnit :=
  l.map (fun u => if u.uid = uid then { u with isAllocated := b } else u)

/-- Modelled from the spec: conservatively clear the contiguity flag of the
final (tail) unit of the Unit List — a new reservation is never treated as
address-contiguous with the previous one. -/
def clearLastContig : List HeapUnit → List HeapUnit
  | [] => []
  | u :: rest =>
    if rest.isEmpty then [{ u with isNextContiguousMemory := false }]
    else u :: clearLastContig rest

/-- Replace the unit `uid` of the Unit List by the two halves of its split:
the head keeps the identifier and gets payload size `s` and a true contiguity
flag, and a fresh free tail unit of the leftover payload (the original size
minus `s` minus one header) inherits the original contiguity flag. -/
def splitUnits (newUid uid s : Nat) : List HeapUnit → List HeapUnit
  | [] => []
  | u :: rest =>
    if u.uid = uid then
      { u with size := s, isNextContiguousMemory := true }
        :: HeapUnit.make newUid (u.size - s - sizeofMemoryUnitHeader) u.isNextContiguousMemory
        :: rest
    else u :: splitUnits newUid uid s rest

/-- Modelled from the spec: `splitMemoryUnit(unit, size)` — if the leftover
space of the unit beyond `size` exceeds one header's worth of bytes, split it:
the head keeps payload `size`, and the tail becomes a new free unit inserted
after the head in the Unit List and at the head of the Free List. -/
def splitMemoryUnit (st : HeapState) (uid s : Nat) : HeapState :=
  match getUnit uid st with
  | none => st
  | some u =>
    if sizeofMemoryUnitHeader < u.size - s then
      { st with
        units := splitUnits st.uidCounter uid s st.units,
        freeList := addToFreeUnits st.uidCounter st.freeList,
        uidCounter := st.uidCounter + 1 }
    else st

/-- Absorb the unit following `uid1` in the Unit List into the unit `uid1`:
its size grows by one header plus the absorbed payload and it takes over the
absorbed unit's contiguity flag. -/
def mergeUnitsAux (uid1 : Nat) : List HeapUnit → List HeapUnit
  | [] => []
  | u :: rest =>
    if u.uid = uid1 then
      match rest with
      | [] => [u]
      | b :: rest2 =>
        { u with size := u.size + sizeofMemoryUnitHeader + b.size,
                 isNextContiguousMemory := b.isNextContiguousMemory } :: rest2
    else u :: mergeUnitsAux uid1 rest

/-- Modelled from the spec: `mergeUnits(unit1, unit2)` — under the
preconditions that both units are free, `unit2` immediately follows `unit1`
in the Unit List, and `unit1.isNextContiguousMemory` holds, the first unit
absorbs the second (size grown by `headerSize + unit2.size`, contiguity flag
taken from `unit2`, links rewired by list adjacency) and the second is
removed from the Free List. -/
def mergeUnits (st : HeapState) (uid1 uid2 : Nat) : HeapState :=
  { st with
    units := mergeUnitsAux uid1 st.units,
    freeList := removeFromFreeUnits uid2 st.freeList }

/-- Modelled from the spec: `reserve(sizeToAllocate)` obtains a block of at
least `max sizeToAllocate g` payload bytes (plus one header) from the base
allocator, where `g` is the fixed growth-increment constant, and appends it
to the Unit List as one new free unit; the previous tail's contiguity flag is
conservatively cleared. -/
def reserve (g : Nat) (st : HeapState) (sizeToAllocate : Nat) : HeapState :=
  { st with
    units := clearLastContig st.units ++ [HeapUnit.make st.uidCounter (max sizeToAllocate g) false],
    freeList := addToFreeUnits st.uidCounter st.freeList,
    uidCounter := st.uidCounter + 1,
    reservedBytes := st.reservedBytes + max sizeToAllocate g + sizeofMemoryUnitHeader }

/-- Fit test of the first-fit search: the unit's payload size (after aligning
the would-be return address, a no-op in the arena model) accommodates the
request. -/
def fits (s : Nat) (u : HeapUnit) : Bool := decide (s ≤ u.size)

/-- Fit test lifted to a Free List entry. -/
def fitsId (s : Nat) (st : HeapState) (uid : Nat) : Bool :=
  match getUnit uid st with
  | some u => fits s u
  | none => false

/-- First-fit search: scan the Free List from its fixed head and return the
first unit large enough for the request. -/
def findFirstFit (s : Nat) (st : HeapState) : Option Nat :=
  st.freeList.find? (fitsId s st)

/-- Mark the chosen unit allocated and unlink it from the Free List,
incrementing the debug allocate counter. -/
def markAllocated (st : HeapState) (uid : Nat) : HeapState :=
  { st with
    units := setAllocated uid true st.units,
    freeList := removeFromFreeUnits uid st.freeList,
    nbAlloc := st.nbAlloc + 1 }

/-- Serve a request of `s` bytes from the free unit `uid`: split off the
leftover if worthwhile (the guard lives in `splitMemoryUnit`), then mark the
head allocated; the returned payload pointer is modelled by the unit
identifier. -/
def allocAt (st : HeapState) (uid s : Nat) : HeapState × Nat :=
  (markAllocated (splitMemoryUnit st uid s) uid, uid)

/-- Modelled from the spec: `allocate(size)` — precondition `size > 0`
(violated: InvalidArgument assertion fault); first-fit search of the Free
List; on failure grow via `reserve` and retry the search exactly once. -/
def allocate (g : Nat) (st : HeapState) (s : Nat) : Except AllocFault (HeapState × Nat) :=
  if s = 0 then .error .invalidArgument
  else
    match findFirstFit s st with
    | some uid => .ok (allocAt st uid s)
    | none =>
      let st2 := reserve g st s
      match findFirstFit s st2 with
      | some uid => .ok (allocAt st2 uid s)
      | none => .error .outOfMemory

/-- Mark the unit `uid` free and link it into the Free List, incrementing the
debug release counter. -/
def markFreed (st : HeapState) (uid : Nat) : HeapState :=
  { st with
    units := setAllocated uid false st.units,
    freeList := addToFreeUnits uid st.freeList,
    nbRelease := st.nbRelease + 1 }

/-- Merge the unit `uid` with its previous neighbour when that neighbour is
free and contiguous; return the surviving unit's identifier. -/
def tryMergePrev (st : HeapState) (uid : Nat) : HeapState × Nat :=
  match unitBefore uid st.units, getUnit uid st with
  | some pid, some u =>
    match getUnit pid st with
    | some pu =>
      if !pu.isAllocated && pu.isNextContiguousMemory && !u.isAllocated then
        (mergeUnits st pid uid, pid)
      else (st, uid)
    | none => (st, uid)
  | _, _ => (st, uid)

/-- Merge the unit `uid` with its next neighbour when `uid`'s contiguity flag
holds and the neighbour is free. -/
def tryMergeNext (st : HeapState) (uid : Nat) : HeapState :=
  match unitAfter uid st.units, getUnit uid st with
  | some nid, some u =>
    match getUnit nid st with
    | some nu =>
      if u.isNextContiguousMemory && !nu.isAllocated && !u.isAllocated then
        mergeUnits st uid nid
      else st
    | none => st
  | _, _ => st

/-- Modelled from the spec: `release(pointer, size)` — locate the owning unit
(the identifier models the recovered header pointer), check the debug
size-match assertion, mark the unit free, insert it into the Free List, then
attempt to coalesce with the address-adjacent neighbour on each side when the
contiguity invariant holds for that side. -/
def release (st : HeapState) (uid s : Nat) : Except AllocFault HeapState :=
  match getUnit uid st with
  | none => .error .invalidPointer
  | some u =>
    if u.isAllocated = false then .error .invalidPointer
    else if u.size ≠ s then .error .sizeMismatch
    else
      let st1 := markFreed st uid
      let pr := tryMergePrev st1 uid
      .ok (tryMergeNext pr.1 pr.2)

/-- Modelled from the spec: construction with a base allocator and an optional
initial reservation size; zero means reserve lazily on first allocation. -/
def mkHeapAllocator (g initAllocatedMemory : Nat) : HeapState :=
  if initAllocatedMemory = 0 then emptyHeap else reserve g emptyHeap initAllocatedMemory

/-- Total-function wrapper of `allocate` used to script concrete scenarios; a
fault leaves the state unchanged and returns identifier 0. -/
def allocateRun (g : Nat) (st : HeapState) (s : Nat) : HeapState × Nat :=
  match allocate g st s with
  | .ok r => r
  | .error _ => (st, 0)

/-- Total-function wrapper of `release` used to script concrete scenarios; a
fault leaves the state unchanged. -/
def releaseRun (st : HeapState) (uid s : Nat) : HeapState :=
  match release st uid s with
  | .ok st2 => st2
  | .error _ => st

/-- Identifiers of the units of a Unit List. -/
def uidsOf (l : List HeapUnit) : List Nat := l.map HeapUnit.uid

/-- Number of allocated units of a Unit List. -/
def allocCount (l : List HeapUnit) : Nat := l.countP (fun u => u.isAllocated)

/-- Sum of the payload sizes of a Unit List. -/
def sizeSum (l : List HeapUnit) : Nat := (l.map HeapUnit.size).sum

/-- Total free bytes: sum of the payload sizes of the unallocated units. -/
def freeMemorySize (st : HeapState) : Nat :=
  ((st.units.filter (fun u => !u.isAllocated)).map HeapUnit.size).sum

/-- Total header overhead of the arena: one header per unit. -/
def totalHeaderSize (st : HeapState) : Nat :=
  sizeofMemoryUnitHeader * st.units.length

/-- One public operation of the heap allocator: a successful `allocate`, a
successful `release`, or an arena growth via `reserve` (the internal
`splitMemoryUnit`, `addToFreeUnits`, `removeFromFreeUnits` and `mergeUnits`
operations occur inside these steps at their call sites). -/
inductive Step : HeapState → HeapState → Prop where
  | alloc (g s : Nat) (st st' : HeapState) (uid : Nat)
      (h : allocate g st s = .ok (st', uid)) : Step st st'
  | freeOp (uid s : Nat) (st st' : HeapState)
      (h : release st uid s = .ok st') : Step st st'
  | grow (g s : Nat) (st : HeapState) : Step st (reserve g st s)

/-- States reachable from the freshly constructed allocator by any sequence
of operations. -/
inductive Reachable : HeapState → Prop where
  | init : Reachable emptyHeap
  | step {st st' : HeapState} : Reachable st → Step st st' → Reachable st'

/-- Well-formedness invariant of an allocator state: unit identifiers are
distinct, the Free List holds exactly the identifiers of the unallocated
units (without duplicates), identifiers are below the freshness counter,
every reserved byte is accounted for by payloads plus headers, and the debug
counters differ by the number of outstanding allocated units. -/
structure WF (st : HeapState) : Prop where
  nodupUnits : (uidsOf st.units).Nodup
  nodupFree : st.freeList.Nodup
  freeSub : ∀ i ∈ st.freeList, ∃ u, u ∈ st.units ∧ u.uid = i ∧ u.isAllocated = false
  freeComplete : ∀ u ∈ st.units, u.isAllocated = false → u.uid ∈ st.freeList
  fresh : ∀ u ∈ st.units, u.uid < st.uidCounter
  conservation : sizeSum st.units + sizeofMemoryUnitHeader * st.units.length = st.reservedBytes
  counters : st.nbAlloc = st.nbRelease + allocCount st.units

end RP3D

namespace RP3D

/-! ## Narrow-phase collision dispatch -/

/-- Modelled from the spec: the enumerated shape-type tags (the
`CollisionShapeType` enum is not part of the source excerpt).  The ordinals
place `SPHERE` strictly before `CONVEX_MESH`, as the dispatch-ordering
contract of the spec requires. -/
inductive CollisionShapeType where
  | TRIANGLE
  | BOX
  | SPHERE
  | CONE
  | CYLINDER
  | CAPSULE
  | CONVEX_MESH
  | CONCAVE_MESH
  | HEIGHTFIELD
deriving DecidableEq

/-- Enum ordinal of a shape type. -/
def CollisionShapeType.toNat : CollisionShapeType → Nat
  | .TRIANGLE => 0
  | .BOX => 1
  | .SPHERE => 2
  | .CONE => 3
  | .CYLINDER => 4
  | .CAPSULE => 5
  | .CONVEX_MESH => 6
  | .CONCAVE_MESH => 7
  | .HEIGHTFIELD => 8

/-- The `static_cast<CollisionShapeType>` of an integer tag, defined on the
ordinals of the enumerators. -/
def CollisionShapeType.ofOrdinal : Nat → Option CollisionShapeType
  | 0 => some .TRIANGLE
  | 1 => some .BOX
  | 2 => some .SPHERE
  | 3 => some .CONE
  | 4 => some .CYLINDER
  | 5 => some .CAPSULE
  | 6 => some .CONVEX_MESH
  | 7 => some .CONCAVE_MESH
  | 8 => some .HEIGHTFIELD
  | _ => none

/-- Modelled from the spec: `CollisionShape::isConvex` (not part of the
source excerpt) — the convex shape classes. -/
def isConvexShape : CollisionShapeType → Bool
  | .TRIANGLE => true
  | .BOX => true
  | .SPHERE => true
  | .CONE => true
  | .CYLINDER => true
  | .CAPSULE => true
  | .CONVEX_MESH => true
  | .CONCAVE_MESH => false
  | .HEIGHTFIELD => false

/-- The two stateless narrow-phase algorithm members returned by the
dispatch (`mSphereVsSphereAlgorithm`, `mSphereVsConvexMeshAlgorithm`); a
`none` result models the null algorithm pointer. -/
inductive NarrowPhaseAlgorithm where
  | sphereVsSphere
  | sphereVsConvexMesh
deriving DecidableEq

/-- The dispatch `DefaultCollisionDispatch::selectAlgorithm(int type1, int type2)`
from the source: casts the integer tags, returns null when `type1 > type2`,
then dispatches sphere-vs-sphere and sphere-vs-convex, and otherwise returns
null. -/
def selectAlgorithm (type1 type2 : Nat) : Option NarrowPhaseAlgorithm :=
  let shape1Type := CollisionShapeType.ofOrdinal type1
  let shape2Type := CollisionShapeType.ofOrdinal type2
  if type2 < type1 then none
  else if shape1Type = some .SPHERE ∧ shape2Type = some .SPHERE then
    some .sphereVsSphere
  else if shape1Type = some .SPHERE ∧ (shape2Type.map isConvexShape).getD false then
    some .sphereVsConvexMesh
  else none

/-- Dispatch restricted to well-formed shape-type tags. -/
def selectAlgorithmOnShapes (t1 t2 : CollisionShapeType) : Option NarrowPhaseAlgorithm :=
  selectAlgorithm t1.toNat t2.toNat

/-- The dispatch table as the specification words it (ordered case list):
sphere-sphere, then sphere versus a convex shape of larger-or-equal ordinal,
and none for every other pair. -/
def specDispatch (t1 t2 : CollisionShapeType) : Option NarrowPhaseAlgorithm :=
  if t1 = .SPHERE ∧ t2 = .SPHERE then some .sphereVsSphere
  else if t1 = .SPHERE ∧ isConvexShape t2 ∧ t1.toNat ≤ t2.toNat then some .sphereVsConvexMesh
  else none

/-! ## Concrete scenarios -/

/-- Allocator constructed with an initial reservation of exactly
`128 + headerSize` payload bytes, the single reservation of the coalescing
scenario. -/
def coalesceInit : HeapState := mkHeapAllocator (128 + sizeofMemoryUnitHeader) (128 + sizeofMemoryUnitHeader)

/-- First 64-byte allocation (unit `A`) of the coalescing scenario. -/
def coalesceA : HeapState × Nat := allocateRun (128 + sizeofMemoryUnitHeader) coalesceInit 64

/-- Second 64-byte allocation (unit `B`) of the coalescing scenario. -/
def coalesceB : HeapState × Nat := allocateRun (128 + sizeofMemoryUnitHeader) coalesceA.1 64

/-- Final state of the coalescing scenario after releasing `A` then `B`. -/
def coalesceFreeAB : HeapState := releaseRun (releaseRun coalesceB.1 coalesceA.2 64) coalesceB.2 64

/-- Final state of the coalescing scenario after releasing `B` then `A`. -/
def coalesceFreeBA : HeapState := releaseRun (releaseRun coalesceB.1 coalesceB.2 64) coalesceA.2 64

/-- A demonstration state: one reservation of 100 payload bytes. -/
def demoReserve : HeapState := reserve 16 emptyHeap 100

/-- A demonstration state holding one free unit of 1000 payload bytes. -/
def splitDemo : HeapState :=
  { units := [⟨0, 1000, false, false⟩], freeList := [0], uidCounter := 1,
    reservedBytes := 1000 + sizeofMemoryUnitHeader, nbAlloc := 0, nbRelease := 0 }

/-- A demonstration state holding two adjacent free contiguous 64-byte
units. -/
def mergeDemo : HeapState :=
  { units := [⟨0, 64, true, false⟩, ⟨1, 64, false, false⟩], freeList := [0, 1], uidCounter := 2,
    reservedBytes := 128 + 2 * sizeofMemoryUnitHeader, nbAlloc := 0, nbRelease := 0 }

/-! ## Generic list lemmas -/

theorem find?_decomp {α : Type} (p : α → Bool) :
    ∀ (l : List α) (x : α), l.find? p = some x →
      ∃ l1 l2, l = l1 ++ x :: l2 ∧ p x = true ∧ ∀ y ∈ l1, p y = false := by
  intro l
  induction l with
  | nil => intro x h; simp [List.find?] at h
  | cons a as ih =>
    intro x h
    cases hpa : p a with
    | true =>
      rw [List.find?_cons_of_pos _ hpa, Option.some_inj] at h
      subst h
      exact ⟨[], as, rfl, hpa, by simp⟩
    | false =>
      rw [List.find?_cons_of_neg _ (by simp [hpa])] at h
      obtain ⟨l1, l2, rfl, hx, hl1⟩ := ih x h
      refine ⟨a :: l1, l2, rfl, hx, ?_⟩
      intro y hy
      rcases List.mem_cons.mp hy with rfl | hy2
      · exact hpa
      · exact hl1 y hy2

theorem find?_prefix_none {α : Type} (p : α → Bool) (l1 l2 : List α) (x : α)
    (h1 : ∀ y ∈ l1, p y = false) (hx : p x = true) :
    (l1 ++ x :: l2).find? p = some x := by
  induction l1 with
  | nil => simpa [List.find?_cons_of_pos] using List.find?_cons_of_pos l2 hx
  | cons a as ih =>
    have ha : p a = false := h1 a (List.mem_cons_self a as)
    rw [List.cons_append, List.find?_cons_of_neg _ (by simp [ha])]
    exact ih (fun y hy => h1 y (List.mem_cons_of_mem a hy))

theorem nodup_mid {α : Type} {l1 l2 : List α} {a : α} (h : (l1 ++ a :: l2).Nodup) :
    a ∉ l1 ∧ a ∉ l2 := by
  rw [List.nodup_append] at h
  obtain ⟨h1, h2, hd⟩ := h
  rw [List.nodup_cons] at h2
  exact ⟨fun ha => hd ha (List.mem_cons_self a l2), h2.1⟩

/-! ## Aggregate lemmas about the Unit-List measures -/

@[simp] theorem uidsOf_nil : uidsOf [] = [] := rfl

@[simp] theorem uidsOf_cons (u : HeapUnit) (l : List HeapUnit) :
    uidsOf (u :: l) = u.uid :: uidsOf l := rfl

@[simp] theorem uidsOf_append (l1 l2 : List HeapUnit) :
    uidsOf (l1 ++ l2) = uidsOf l1 ++ uidsOf l2 := List.map_append _ _ _

@[simp] theorem sizeSum_nil : sizeSum [] = 0 := rfl

@[simp] theorem sizeSum_cons (u : HeapUnit) (l : List HeapUnit) :
    sizeSum (u :: l) = u.size + sizeSum l := rfl

@[simp] theorem sizeSum_append (l1 l2 : List HeapUnit) :
    sizeSum (l1 ++ l2) = sizeSum l1 + sizeSum l2 := by
  simp [sizeSum]

@[simp] theorem allocCount_nil : allocCount [] = 0 := rfl

@[simp] theorem allocCount_cons (u : HeapUnit) (l : List HeapUnit) :
    allocCount (u :: l) = allocCount l + if u.isAllocated then 1 else 0 :=
  List.countP_cons _ _ _

@[simp] theorem allocCount_append (l1 l2 : List HeapUnit) :
    allocCount (l1 ++ l2) = allocCount l1 + allocCount l2 :=
  List.countP_append _ _ _

theorem notMem_uids {i : Nat} {l : List HeapUnit} :
    i ∉ uidsOf l ↔ ∀ v ∈ l, v.uid ≠ i := by
  simp only [uidsOf, List.mem_map, not_exists]
  constructor
  · intro h v hv he
    exact h v ⟨hv, he⟩
  · rintro h v ⟨hv, he⟩
    exact h v hv he

@[simp] theorem mem_removeFromFreeUnits {j i : Nat} {fl : List Nat} :
    j ∈ removeFromFreeUnits i fl ↔ j ∈ fl ∧ j ≠ i := by
  simp [removeFromFreeUnits]

/-! ## Lemmas about `setAllocated` -/

theorem setAllocated_eq_of_ne (i : Nat) (b : Bool) (l : List HeapUnit)
    (h : ∀ v ∈ l, v.uid ≠ i) : setAllocated i b l = l := by
  induction l with
  | nil => rfl
  | cons a as ih =>
    have ha : a.uid ≠ i := h a (List.mem_cons_self a as)
    simp only [setAllocated, List.map_cons, if_neg ha]
    rw [show List.map _ as = setAllocated i b as from rfl,
      ih (fun v hv => h v (List.mem_cons_of_mem a hv))]

theorem setAllocated_decomp (i : Nat) (b : Bool) (l1 l2 : List HeapUnit) (u : HeapUnit)
    (h1 : ∀ v ∈ l1, v.uid ≠ i) (h2 : ∀ v ∈ l2, v.uid ≠ i) (hu : u.uid = i) :
    setAllocated i b (l1 ++ u :: l2) = l1 ++ { u with isAllocated := b } :: l2 := by
  simp only [setAllocated, List.map_append, List.map_cons, if_pos hu]
  rw [show List.map _ l1 = setAllocated i b l1 from rfl, setAllocated_eq_of_ne i b l1 h1,
    show List.map _ l2 = setAllocated i b l2 from rfl, setAllocated_eq_of_ne i b l2 h2]

@[simp] theorem uidsOf_setAllocated (i : Nat) (b : Bool) (l : List HeapUnit) :
    uidsOf (setAllocated i b l) = uidsOf l := by
  induction l with
  | nil => rfl
  | cons a as ih =>
    simp only [setAllocated, List.map_cons, uidsOf_cons] at *
    by_cases h : a.uid = i <;> simp [h, ih]

@[simp] theorem sizeSum_setAllocated (i : Nat) (b : Bool) (l : List HeapUnit) :
    sizeSum (setAllocated i b l) = sizeSum l := by
  induction l with
  | nil => rfl
  | cons a as ih =>
    simp only [setAllocated, List.map_cons, sizeSum_cons] at *
    by_cases h : a.uid = i <;> simp [h, ih]

@[simp] theorem length_setAllocated (i : Nat) (b : Bool) (l : List HeapUnit) :
    (setAllocated i b l).length = l.length := by
  simp [setAllocated]

/-! ## Lemmas about `clearLastContig` -/

@[simp] theorem uidsOf_clearLastContig (l : List HeapUnit) :
    uidsOf (clearLastContig l) = uidsOf l := by
  induction l with
  | nil => rfl
  | cons a as ih =>
    cases as with
    | nil => simp [clearLastContig]
    | cons b bs => simpa [clearLastContig] using ih

@[simp] theorem sizeSum_clearLastContig (l : List HeapUnit) :
    sizeSum (clearLastContig l) = sizeSum l := by
  induction l with
  | nil => rfl
  | cons a as ih =>
    cases as with
    | nil => simp [clearLastContig]
    | cons b bs => simpa [clearLastContig] using ih

@[simp] theorem length_clearLastContig (l : List HeapUnit) :
    (clearLastContig l).length = l.length := by
  induction l with
  | nil => rfl
  | cons a as ih =>
    cases as with
    | nil => simp [clearLastContig]
    | cons b bs => simpa [clearLastContig] using ih

@[simp] theorem allocCount_clearLastContig (l : List HeapUnit) :
    allocCount (clearLastContig l) = allocCount l := by
  induction l with
  | nil => rfl
  | cons a as ih =>
    cases as with
    | nil => simp [clearLastContig]
    | cons b bs => simpa [clearLastContig] using ih

theorem clearLastContig_singleton (a : HeapUnit) :
    clearLastContig [a] = [{ a with isNextContiguousMemory := false }] := by
  simp [clearLastContig]

theorem clearLastContig_cons_cons (a b : HeapUnit) (bs : List HeapUnit) :
    clearLastContig (a :: b :: bs) = a :: clearLastContig (b :: bs) := by
  simp [clearLastContig]

theorem mem_clearLastContig {l : List HeapUnit} {u : HeapUnit} (h : u ∈ clearLastContig l) :
    ∃ v ∈ l, u.uid = v.uid ∧ u.size = v.size ∧ u.isAllocated = v.isAllocated := by
  induction l with
  | nil => simp [clearLastContig] at h
  | cons a as ih =>
    cases as with
    | nil =>
      simp only [clearLastContig, List.isEmpty_nil, if_pos] at h
      rcases List.mem_singleton.mp h with rfl
      exact ⟨a, List.mem_cons_self a [], rfl, rfl, rfl⟩
    | cons b bs =>
      simp only [clearLastContig, List.isEmpty_cons, if_neg] at h
      rcases List.mem_cons.mp h with rfl | h2
      · exact ⟨u, List.mem_cons_self _ _, rfl, rfl, rfl⟩
      · obtain ⟨v, hv, he⟩ := ih h2
        exact ⟨v, List.mem_cons_of_mem a hv, he⟩

theorem clearLastContig_mem {l : List HeapUnit} {v : HeapUnit} (h : v ∈ l) :
    ∃ u ∈ clearLastContig l, u.uid = v.uid ∧ u.size = v.size ∧ u.isAllocated = v.isAllocated := by
  induction l with
  | nil => simp at h
  | cons a as ih =>
    cases as with
    | nil =>
      rcases List.mem_singleton.mp h with rfl
      exact ⟨{ v with isNextContiguousMemory := false }, by simp [clearLastContig], rfl, rfl, rfl⟩
    | cons b bs =>
      rcases List.mem_cons.mp h with rfl | h2
      · exact ⟨v, by rw [clearLastContig_cons_cons]; exact List.mem_cons_self _ _, rfl, rfl, rfl⟩
      · obtain ⟨u, hu, he⟩ := ih h2
        exact ⟨u, by rw [clearLastContig_cons_cons]; exact List.mem_cons_of_mem a hu, he⟩

/-! ## Structural lemmas about split, merge and the neighbour searches -/

theorem splitUnits_decomp (n i s : Nat) (l1 l2 : List HeapUnit) (u : HeapUnit)
    (h1 : ∀ v ∈ l1, v.uid ≠ i) (hu : u.uid = i) :
    splitUnits n i s (l1 ++ u :: l2)
      = l1 ++ { u with size := s, isNextContiguousMemory := true }
          :: HeapUnit.make n (u.size - s - sizeofMemoryUnitHeader) u.isNextContiguousMemory
          :: l2 := by
  induction l1 with
  | nil => simp [splitUnits, hu]
  | cons a as ih =>
    have ha : a.uid ≠ i := h1 a (List.mem_cons_self a as)
    simp only [List.cons_append, splitUnits, if_neg ha]
    exact congrArg (fun x => a :: x) (ih (fun v hv => h1 v (List.mem_cons_of_mem a hv)))

theorem mergeUnitsAux_decomp (i : Nat) (l1 l2 : List HeapUnit) (a b : HeapUnit)
    (h1 : ∀ v ∈ l1, v.uid ≠ i) (ha : a.uid = i) :
    mergeUnitsAux i (l1 ++ a :: b :: l2)
      = l1 ++ { a with size := a.size + sizeofMemoryUnitHeader + b.size,
                       isNextContiguousMemory := b.isNextContiguousMemory } :: l2 := by
  induction l1 with
  | nil => simp [mergeUnitsAux, ha]
  | cons c cs ih =>
    have hc : c.uid ≠ i := h1 c (List.mem_cons_self c cs)
    simp only [List.cons_append, mergeUnitsAux, if_neg hc]
    exact congrArg (fun x => c :: x) (ih (fun v hv => h1 v (List.mem_cons_of_mem c hv)))

theorem unitAfter_decomp (i nid : Nat) :
    ∀ l : List HeapUnit, unitAfter i l = some nid →
      ∃ l1 a b l2, l = l1 ++ a :: b :: l2 ∧ a.uid = i ∧ b.uid = nid := by
  intro l
  induction l with
  | nil => intro h; simp [unitAfter] at h
  | cons a rest ih =>
    intro h
    cases rest with
    | nil => simp [unitAfter] at h
    | cons b bs =>
      by_cases hai : a.uid = i
      · simp only [unitAfter, if_pos hai, Option.some_inj] at h
        exact ⟨[], a, b, bs, rfl, hai, h⟩
      · simp only [unitAfter, if_neg hai] at h
        obtain ⟨l1, x, y, l2, heq, hx, hy⟩ := ih h
        exact ⟨a :: l1, x, y, l2, by rw [List.cons_append, ← heq], hx, hy⟩

theorem unitBefore_decomp (i pid : Nat) :
    ∀ l : List HeapUnit, unitBefore i l = some pid →
      ∃ l1 p u l2, l = l1 ++ p :: u :: l2 ∧ p.uid = pid ∧ u.uid = i := by
  intro l
  induction l with
  | nil => intro h; simp [unitBefore] at h
  | cons a rest ih =>
    intro h
    cases rest with
    | nil => simp [unitBefore] at h
    | cons b bs =>
      by_cases hbi : b.uid = i
      · simp only [unitBefore, if_pos hbi, Option.some_inj] at h
        exact ⟨[], a, b, bs, rfl, h, hbi⟩
      · simp only [unitBefore, if_neg hbi] at h
        obtain ⟨l1, p, u, l2, heq, hp, hu⟩ := ih h
        exact ⟨a :: l1, p, u, l2, by rw [List.cons_append, ← heq], hp, hu⟩

/-! ## Lemmas about `getUnit` -/

theorem getUnit_mem {i : Nat} {st : HeapState} {u : HeapUnit} (h : getUnit i st = some u) :
    u ∈ st.units ∧ u.uid = i := by
  refine ⟨List.mem_of_find?_eq_some h, ?_⟩
  have := List.find?_some h
  exact beq_iff_eq.mp this

theorem getUnit_decomp {i : Nat} {st : HeapState} {u : HeapUnit} (h : getUnit i st = some u) :
    ∃ l1 l2, st.units = l1 ++ u :: l2 ∧ u.uid = i ∧ ∀ v ∈ l1, v.uid ≠ i := by
  obtain ⟨l1, l2, heq, hx, hl1⟩ := find?_decomp _ _ _ h
  refine ⟨l1, l2, heq, beq_iff_eq.mp hx, fun v hv => ?_⟩
  have := hl1 v hv
  simpa using this

theorem getUnit_of_decomp {i : Nat} {st : HeapState} {u : HeapUnit} {l1 l2 : List HeapUnit}
    (heq : st.units = l1 ++ u :: l2) (h1 : ∀ v ∈ l1, v.uid ≠ i) (hu : u.uid = i) :
    getUnit i st = some u := by
  unfold getUnit
  rw [heq]
  exact find?_prefix_none _ l1 l2 u (fun y hy => by simpa using h1 y hy) (by simpa using hu)

theorem uid_inj {l : List HeapUnit} (hnd : (uidsOf l).Nodup) {u v : HeapUnit}
    (hu : u ∈ l) (hv : v ∈ l) (he : u.uid = v.uid) : u = v :=
  List.inj_on_of_nodup_map hnd hu hv he

theorem mem_of_decomp_ne {l1 l2 : List HeapUnit} {u v : HeapUnit}
    (hv : v ∈ l1 ++ u :: l2) (hne : v.uid ≠ u.uid) : v ∈ l1 ∨ v ∈ l2 := by
  rcases List.mem_append.mp hv with h | h
  · exact Or.inl h
  · rcases List.mem_cons.mp h with rfl | h2
    · exact absurd rfl hne
    · exact Or.inr h2

theorem nodup_insert_after {A B : List Nat} {x y : Nat} (h : (A ++ x :: B).Nodup)
    (hy : y ∉ A ++ x :: B) : (A ++ x :: y :: B).Nodup := by
  rw [List.nodup_append] at h ⊢
  obtain ⟨hA, hxB, hd⟩ := h
  rw [List.nodup_cons] at hxB
  simp only [List.mem_append, List.mem_cons] at hy
  push_neg at hy
  refine ⟨hA, ?_, ?_⟩
  · rw [List.nodup_cons, List.nodup_cons]
    refine ⟨?_, hy.2.2, hxB.2⟩
    simp only [List.mem_cons]
    rintro (rfl | hxB2)
    · exact hy.2.1 rfl
    · exact hxB.1 hxB2
  · intro a ha hmem
    simp only [List.mem_cons] at hmem
    rcases hmem with rfl | rfl | haB
    · exact hd ha (List.mem_cons_self _ _)
    · exact hy.1 ha
    · exact hd ha (List.mem_cons_of_mem _ haB)

theorem nodup_delete_after {A B : List Nat} {x y : Nat} (h : (A ++ x :: y :: B).Nodup) :
    (A ++ x :: B).Nodup := by
  have hsub : (A ++ x :: B).Sublist (A ++ x :: y :: B) :=
    ((List.sublist_cons_self y B).cons₂ x).append_left A
  exact h.sublist hsub

theorem decomp_uid_facts {st : HeapState} (h : WF st) {l1 l2 : List HeapUnit} {u : HeapUnit}
    (heq : st.units = l1 ++ u :: l2) :
    (∀ v ∈ l1, v.uid ≠ u.uid) ∧ (∀ v ∈ l2, v.uid ≠ u.uid) := by
  have hnd := h.nodupUnits
  rw [heq] at hnd
  simp only [uidsOf_append, uidsOf_cons] at hnd
  have hm := nodup_mid hnd
  exact ⟨notMem_uids.mp hm.1, notMem_uids.mp hm.2⟩

theorem fitsId_some {s : Nat} {st : HeapState} {j : Nat} (h : fitsId s st j = true) :
    ∃ u, getUnit j st = some u ∧ s ≤ u.size := by
  unfold fitsId at h
  cases hg : getUnit j st with
  | none => rw [hg] at h; exact absurd h (by simp)
  | some u =>
    rw [hg] at h
    exact ⟨u, rfl, by simpa [fits] using h⟩

/-! ## Preservation of the well-formedness invariant -/

theorem wf_empty : WF emptyHeap := by
  refine ⟨?_, ?_, ?_, ?_, ?_, ?_, ?_⟩ <;> simp [emptyHeap, uidsOf, sizeSum, allocCount]

theorem wf_reserve (g s : Nat) {st : HeapState} (h : WF st) : WF (reserve g st s) := by
  obtain ⟨nd, ndf, fs, fc, fr, hcons, hcnt⟩ := h
  have hfl_lt : ∀ i ∈ st.freeList, i < st.uidCounter := by
    intro i hi
    obtain ⟨u, hu, huid, -⟩ := fs i hi
    exact huid ▸ fr u hu
  refine ⟨?_, ?_, ?_, ?_, ?_, ?_, ?_⟩
  · show (uidsOf (clearLastContig st.units ++ [HeapUnit.make st.uidCounter (max s g) false])).Nodup
    rw [uidsOf_append, uidsOf_clearLastContig]
    rw [List.nodup_append]
    refine ⟨nd, List.nodup_singleton _, ?_⟩
    intro x hx hmem
    rcases List.mem_singleton.mp hmem with rfl
    obtain ⟨u, hu, huid⟩ := List.mem_map.mp hx
    exact absurd (huid ▸ fr u hu) (by simp [HeapUnit.make])
  · show (addToFreeUnits st.uidCounter st.freeList).Nodup
    rw [addToFreeUnits, List.nodup_cons]
    exact ⟨fun hmem => absurd (hfl_lt _ hmem) (by omega), ndf⟩
  · intro i hi
    rcases List.mem_cons.mp hi with rfl | hi2
    · exact ⟨HeapUnit.make st.uidCounter (max s g) false,
        List.mem_append_right _ (List.mem_singleton.mpr rfl), rfl, rfl⟩
    · obtain ⟨u, hu, huid, hfree⟩ := fs i hi2
      obtain ⟨u2, hu2, he1, _, he3⟩ := clearLastContig_mem hu
      exact ⟨u2, List.mem_append_left _ hu2, he1.trans huid, he3.trans hfree⟩
  · intro u hu hfree
    rcases List.mem_append.mp hu with h1 | h2
    · obtain ⟨v, hv, he1, _, he3⟩ := mem_clearLastContig h1
      have := fc v hv (he3 ▸ hfree)
      exact List.mem_cons_of_mem _ (he1 ▸ this)
    · rcases List.mem_singleton.mp h2 with rfl
      exact List.mem_cons_self _ _
  · intro u hu
    rcases List.mem_append.mp hu with h1 | h2
    · obtain ⟨v, hv, he1, -, -⟩ := mem_clearLastContig h1
      have := fr v hv
      show u.uid < st.uidCounter + 1
      omega
    · rcases List.mem_singleton.mp h2 with rfl
      show st.uidCounter < st.uidCounter + 1
      omega
  · show sizeSum (clearLastContig st.units ++ [HeapUnit.make st.uidCounter (max s g) false])
        + sizeofMemoryUnitHeader * (clearLastContig st.units ++ [HeapUnit.make st.uidCounter (max s g) false]).length
      = st.reservedBytes + max s g + sizeofMemoryUnitHeader
    rw [sizeSum_append, sizeSum_clearLastContig, List.length_append, length_clearLastContig]
    simp only [sizeSum_cons, sizeSum_nil, List.length_singleton, HeapUnit.make,
      sizeofMemoryUnitHeader] at *
    omega
  · show st.nbAlloc = st.nbRelease
        + allocCount (clearLastContig st.units ++ [HeapUnit.make st.uidCounter (max s g) false])
    rw [allocCount_append, allocCount_clearLastContig]
    simp only [allocCount_cons, allocCount_nil, HeapUnit.make, if_neg Bool.false_ne_true] at *
    omega

theorem wf_markAllocated {st : HeapState} {i : Nat} {u : HeapUnit} (h : WF st)
    (hg : getUnit i st = some u) (hfree : u.isAllocated = false) :
    WF (markAllocated st i) := by
  obtain ⟨l1, l2, heq, huid, -⟩ := getUnit_decomp hg
  obtain ⟨hne1, hne2⟩ := decomp_uid_facts h heq
  have hne1i : ∀ v ∈ l1, v.uid ≠ i := fun v hv => huid ▸ hne1 v hv
  have hne2i : ∀ v ∈ l2, v.uid ≠ i := fun v hv => huid ▸ hne2 v hv
  have hunits : (markAllocated st i).units = l1 ++ { u with isAllocated := true } :: l2 := by
    show setAllocated i true st.units = _
    rw [heq, setAllocated_decomp i true l1 l2 u hne1i hne2i huid]
  obtain ⟨nd, ndf, fs, fc, fr, hcons, hcnt⟩ := h
  refine ⟨?_, ?_, ?_, ?_, ?_, ?_, ?_⟩
  · show (uidsOf (setAllocated i true st.units)).Nodup
    rwa [uidsOf_setAllocated]
  · exact ndf.filter _
  · intro j hj
    obtain ⟨hj1, hj2⟩ := mem_removeFromFreeUnits.mp hj
    obtain ⟨v, hv, hvid, hvfree⟩ := fs j hj1
    have hvne : v.uid ≠ u.uid := by rw [hvid, huid]; exact hj2
    rw [heq] at hv
    rw [hunits]
    rcases mem_of_decomp_ne hv hvne with hm | hm
    · exact ⟨v, List.mem_append_left _ hm, hvid, hvfree⟩
    · exact ⟨v, List.mem_append_right _ (List.mem_cons_of_mem _ hm), hvid, hvfree⟩
  · intro w hw hwfree
    rw [hunits] at hw
    rcases List.mem_append.mp hw with hm | hm
    · have hwmem : w ∈ st.units := heq ▸ List.mem_append_left _ hm
      have := fc w hwmem hwfree
      exact mem_removeFromFreeUnits.mpr ⟨this, hne1i w hm⟩
    · rcases List.mem_cons.mp hm with rfl | hm2
      · exact absurd hwfree (by simp)
      · have hwmem : w ∈ st.units :=
          heq ▸ List.mem_append_right _ (List.mem_cons_of_mem _ hm2)
        have := fc w hwmem hwfree
        exact mem_removeFromFreeUnits.mpr ⟨this, hne2i w hm2⟩
  · intro w hw
    rw [hunits] at hw
    rcases List.mem_append.mp hw with hm | hm
    · exact fr w (heq ▸ List.mem_append_left _ hm)
    · rcases List.mem_cons.mp hm with rfl | hm2
      · show u.uid < st.uidCounter
        exact fr u (heq ▸ List.mem_append_right _ (List.mem_cons_self _ _))
      · exact fr w (heq ▸ List.mem_append_right _ (List.mem_cons_of_mem _ hm2))
  · show sizeSum (setAllocated i true st.units)
        + sizeofMemoryUnitHeader * (setAllocated i true st.units).length = st.reservedBytes
    rwa [sizeSum_setAllocated, length_setAllocated]
  · show st.nbAlloc + 1 = st.nbRelease + allocCount (setAllocated i true st.units)
    have h1 : setAllocated i true st.units = l1 ++ { u with isAllocated := true } :: l2 := hunits
    rw [h1]
    rw [heq] at hcnt
    simp [allocCount_append, allocCount_cons, hfree] at hcnt ⊢
    omega

theorem wf_markFreed {st : HeapState} {i : Nat} {u : HeapUnit} (h : WF st)
    (hg : getUnit i st = some u) (halloc : u.isAllocated = true) :
    WF (markFreed st i) := by
  obtain ⟨l1, l2, heq, huid, -⟩ := getUnit_decomp hg
  obtain ⟨hne1, hne2⟩ := decomp_uid_facts h heq
  have hne1i : ∀ v ∈ l1, v.uid ≠ i := fun v hv => huid ▸ hne1 v hv
  have hne2i : ∀ v ∈ l2, v.uid ≠ i := fun v hv => huid ▸ hne2 v hv
  have hunits : (markFreed st i).units = l1 ++ { u with isAllocated := false } :: l2 := by
    show setAllocated i false st.units = _
    rw [heq, setAllocated_decomp i false l1 l2 u hne1i hne2i huid]
  have hinotfl : i ∉ st.freeList := by
    intro hmem
    obtain ⟨v, hv, hvid, hvfree⟩ := h.freeSub i hmem
    have : v = u := uid_inj h.nodupUnits hv (getUnit_mem hg).1 (by rw [hvid, huid])
    rw [this, halloc] at hvfree
    exact Bool.noConfusion hvfree
  obtain ⟨nd, ndf, fs, fc, fr, hcons, hcnt⟩ := h
  refine ⟨?_, ?_, ?_, ?_, ?_, ?_, ?_⟩
  · show (uidsOf (setAllocated i false st.units)).Nodup
    rwa [uidsOf_setAllocated]
  · show (i :: st.freeList).Nodup
    rw [List.nodup_cons]
    exact ⟨hinotfl, ndf⟩
  · intro j hj
    rcases List.mem_cons.mp hj with rfl | hj2
    · refine ⟨{ u with isAllocated := false }, ?_, huid, rfl⟩
      rw [hunits]
      exact List.mem_append_right _ (List.mem_cons_self _ _)
    · obtain ⟨v, hv, hvid, hvfree⟩ := fs j hj2
      have hvne : v.uid ≠ u.uid := by
        rw [hvid, huid]
        intro hcon
        exact hinotfl (hcon ▸ hj2)
      rw [heq] at hv
      rw [hunits]
      rcases mem_of_decomp_ne hv hvne with hm | hm
      · exact ⟨v, List.mem_append_left _ hm, hvid, hvfree⟩
      · exact ⟨v, List.mem_append_right _ (List.mem_cons_of_mem _ hm), hvid, hvfree⟩
  · intro w hw hwfree
    rw [hunits] at hw
    rcases List.mem_append.mp hw with hm | hm
    · have hwmem : w ∈ st.units := heq ▸ List.mem_append_left _ hm
      exact List.mem_cons_of_mem _ (fc w hwmem hwfree)
    · rcases List.mem_cons.mp hm with rfl | hm2
      · show u.uid ∈ i :: st.freeList
        rw [huid]
        exact List.mem_cons_self _ _
      · have hwmem : w ∈ st.units :=
          heq ▸ List.mem_append_right _ (List.mem_cons_of_mem _ hm2)
        exact List.mem_cons_of_mem _ (fc w hwmem hwfree)
  · intro w hw
    rw [hunits] at hw
    rcases List.mem_append.mp hw with hm | hm
    · exact fr w (heq ▸ List.mem_append_left _ hm)
    · rcases List.mem_cons.mp hm with rfl | hm2
      · show u.uid < st.uidCounter
        exact fr u (heq ▸ List.mem_append_right _ (List.mem_cons_self _ _))
      · exact fr w (heq ▸ List.mem_append_right _ (List.mem_cons_of_mem _ hm2))
  · show sizeSum (setAllocated i false st.units)
        + sizeofMemoryUnitHeader * (setAllocated i false st.units).length = st.reservedBytes
    rwa [sizeSum_setAllocated, length_setAllocated]
  · show st.nbAlloc = st.nbRelease + 1 + allocCount (setAllocated i false st.units)
    have h1 : setAllocated i false st.units = l1 ++ { u with isAllocated := false } :: l2 := hunits
    rw [h1]
    rw [heq] at hcnt
    simp [allocCount_append, allocCount_cons, halloc] at hcnt ⊢
    omega

theorem wf_mergeUnits {st : HeapState} {l1 l2 : List HeapUnit} {a b : HeapUnit} (h : WF st)
    (heq : st.units = l1 ++ a :: b :: l2)
    (hfa : a.isAllocated = false) (hfb : b.isAllocated = false) :
    WF (mergeUnits st a.uid b.uid) := by
  have hnd := h.nodupUnits
  rw [heq] at hnd
  simp only [uidsOf_append, uidsOf_cons] at hnd
  have hmidA := nodup_mid hnd
  have hnotA1 : ∀ v ∈ l1, v.uid ≠ a.uid := by
    intro v hv
    have := hmidA.1
    rw [notMem_uids] at this
    exact this v hv
  have habne : a.uid ≠ b.uid := by
    have := hmidA.2
    simp only [List.mem_cons] at this
    intro hcon
    exact this (Or.inl hcon)
  have hbnot2 : b.uid ∉ uidsOf l2 := by
    have h2 : (a.uid :: b.uid :: uidsOf l2).Nodup := (List.nodup_append.mp hnd).2.1
    have h3 := (List.nodup_cons.mp h2).2
    exact (List.nodup_cons.mp h3).1
  have hbnot1 : b.uid ∉ uidsOf l1 := by
    intro hmem
    have hd := (List.nodup_append.mp hnd).2.2
    exact hd hmem (List.mem_cons_of_mem _ (List.mem_cons_self _ _))
  have hunits : (mergeUnits st a.uid b.uid).units
      = l1 ++ { a with size := a.size + sizeofMemoryUnitHeader + b.size,
                       isNextContiguousMemory := b.isNextContiguousMemory } :: l2 := by
    show mergeUnitsAux a.uid st.units = _
    rw [heq, mergeUnitsAux_decomp a.uid l1 l2 a b hnotA1 rfl]
  obtain ⟨nd, ndf, fs, fc, fr, hcons, hcnt⟩ := h
  refine ⟨?_, ?_, ?_, ?_, ?_, ?_, ?_⟩
  · show (uidsOf (mergeUnitsAux a.uid st.units)).Nodup
    have h1 : mergeUnitsAux a.uid st.units
        = l1 ++ { a with size := a.size + sizeofMemoryUnitHeader + b.size,
                         isNextContiguousMemory := b.isNextContiguousMemory } :: l2 := hunits
    rw [h1]
    simp only [uidsOf_append, uidsOf_cons]
    show (uidsOf l1 ++ a.uid :: uidsOf l2).Nodup
    exact nodup_delete_after hnd
  · exact ndf.filter _
  · intro j hj
    obtain ⟨hj1, hj2⟩ := mem_removeFromFreeUnits.mp hj
    obtain ⟨v, hv, hvid, hvfree⟩ := fs j hj1
    rw [hunits]
    by_cases hva : v.uid = a.uid
    · refine ⟨_, List.mem_append_right _ (List.mem_cons_self _ _), ?_, hfa⟩
      show a.uid = j
      rw [← hva]
      exact hvid
    · rw [heq] at hv
      rcases List.mem_append.mp hv with hm | hm
      · exact ⟨v, List.mem_append_left _ hm, hvid, hvfree⟩
      · rcases List.mem_cons.mp hm with rfl | hm2
        · exact absurd rfl hva
        · rcases List.mem_cons.mp hm2 with rfl | hm3
          · exact absurd hvid.symm hj2
          · exact ⟨v, List.mem_append_right _ (List.mem_cons_of_mem _ hm3), hvid, hvfree⟩
  · intro w hw hwfree
    rw [hunits] at hw
    rcases List.mem_append.mp hw with hm | hm
    · have hwmem : w ∈ st.units := heq ▸ List.mem_append_left _ hm
      have hfl := fc w hwmem hwfree
      refine mem_removeFromFreeUnits.mpr ⟨hfl, ?_⟩
      intro hcon
      exact hbnot1 (hcon ▸ List.mem_map.mpr ⟨w, hm, rfl⟩)
    · rcases List.mem_cons.mp hm with rfl | hm2
      · have hamem : a ∈ st.units := heq ▸ List.mem_append_right _ (List.mem_cons_self _ _)
        have hfl := fc a hamem hfa
        exact mem_removeFromFreeUnits.mpr ⟨hfl, habne⟩
      · have hwmem : w ∈ st.units :=
          heq ▸ List.mem_append_right _ (List.mem_cons_of_mem _ (List.mem_cons_of_mem _ hm2))
        have hfl := fc w hwmem hwfree
        refine mem_removeFromFreeUnits.mpr ⟨hfl, ?_⟩
        intro hcon
        exact hbnot2 (hcon ▸ List.mem_map.mpr ⟨w, hm2, rfl⟩)
  · intro w hw
    rw [hunits] at hw
    rcases List.mem_append.mp hw with hm | hm
    · exact fr w (heq ▸ List.mem_append_left _ hm)
    · rcases List.mem_cons.mp hm with rfl | hm2
      · show a.uid < st.uidCounter
        exact fr a (heq ▸ List.mem_append_right _ (List.mem_cons_self _ _))
      · exact fr w
          (heq ▸ List.mem_append_right _ (List.mem_cons_of_mem _ (List.mem_cons_of_mem _ hm2)))
  · show sizeSum (mergeUnitsAux a.uid st.units)
        + sizeofMemoryUnitHeader * (mergeUnitsAux a.uid st.units).length = st.reservedBytes
    have h1 : mergeUnitsAux a.uid st.units
        = l1 ++ { a with size := a.size + sizeofMemoryUnitHeader + b.size,
                         isNextContiguousMemory := b.isNextContiguousMemory } :: l2 := hunits
    rw [h1]
    rw [heq] at hcons
    simp only [sizeSum_append, sizeSum_cons, List.length_append, List.length_cons,
      sizeofMemoryUnitHeader] at hcons ⊢
    omega
  · show st.nbAlloc = st.nbRelease + allocCount (mergeUnitsAux a.uid st.units)
    have h1 : mergeUnitsAux a.uid st.units
        = l1 ++ { a with size := a.size + sizeofMemoryUnitHeader + b.size,
                         isNextContiguousMemory := b.isNextContiguousMemory } :: l2 := hunits
    rw [h1]
    rw [heq] at hcnt
    simp [allocCount_append, allocCount_cons, hfa, hfb] at hcnt ⊢
    omega

theorem wf_tryMergeNext {st : HeapState} (h : WF st) (i : Nat) : WF (tryMergeNext st i) := by
  unfold tryMergeNext
  split
  case h_2 => exact h
  case h_1 nid u hA hg =>
    split
    case h_2 => exact h
    case h_1 nu hgn =>
      split
      case isFalse => exact h
      case isTrue hcond =>
        obtain ⟨l1, x, y, l2, heq, hx, hy⟩ := unitAfter_decomp i nid st.units hA
        have hxmem : x ∈ st.units := heq ▸ List.mem_append_right _ (List.mem_cons_self _ _)
        have hymem : y ∈ st.units :=
          heq ▸ List.mem_append_right _ (List.mem_cons_of_mem _ (List.mem_cons_self _ _))
        have hux : u = x := by
          refine uid_inj h.nodupUnits (getUnit_mem hg).1 hxmem ?_
          rw [(getUnit_mem hg).2, hx]
        have hny : nu = y := by
          refine uid_inj h.nodupUnits (getUnit_mem hgn).1 hymem ?_
          rw [(getUnit_mem hgn).2, hy]
        simp only [Bool.and_eq_true, Bool.not_eq_eq_eq_not, Bool.not_true] at hcond
        have hfx : x.isAllocated = false := by rw [← hux]; exact hcond.2
        have hfy : y.isAllocated = false := by rw [← hny]; exact hcond.1.2
        have := wf_mergeUnits h heq hfx hfy
        rw [hx, hy] at this
        exact this

theorem wf_tryMergePrev {st : HeapState} (h : WF st) (i : Nat) : WF (tryMergePrev st i).1 := by
  unfold tryMergePrev
  split
  case h_2 => exact h
  case h_1 pid u hB hg =>
    split
    case h_2 => exact h
    case h_1 pu hgp =>
      split
      case isFalse => exact h
      case isTrue hcond =>
        obtain ⟨l1, p, x, l2, heq, hp, hx⟩ := unitBefore_decomp i pid st.units hB
        have hpmem : p ∈ st.units := heq ▸ List.mem_append_right _ (List.mem_cons_self _ _)
        have hxmem : x ∈ st.units :=
          heq ▸ List.mem_append_right _ (List.mem_cons_of_mem _ (List.mem_cons_self _ _))
        have hup : pu = p := by
          refine uid_inj h.nodupUnits (getUnit_mem hgp).1 hpmem ?_
          rw [(getUnit_mem hgp).2, hp]
        have hux : u = x := by
          refine uid_inj h.nodupUnits (getUnit_mem hg).1 hxmem ?_
          rw [(getUnit_mem hg).2, hx]
        simp only [Bool.and_eq_true, Bool.not_eq_eq_eq_not, Bool.not_true] at hcond
        have hfp : p.isAllocated = false := by rw [← hup]; exact hcond.1.1
        have hfx : x.isAllocated = false := by rw [← hux]; exact hcond.2
        have := wf_mergeUnits h heq hfp hfx
        rw [hp, hx] at this
        exact this

theorem wf_release {st st2 : HeapState} {i s : Nat} (h : WF st)
    (hr : release st i s = .ok st2) : WF st2 := by
  unfold release at hr
  cases hg : getUnit i st with
  | none => rw [hg] at hr; exact absurd hr (by simp)
  | some u =>
    rw [hg] at hr
    dsimp only at hr
    by_cases hb : u.isAllocated = false
    · rw [if_pos hb] at hr
      exact absurd hr (by simp)
    · rw [if_neg hb] at hr
      by_cases hsz : u.size ≠ s
      · rw [if_pos hsz] at hr
        exact absurd hr (by simp)
      · rw [if_neg hsz] at hr
        have halloc : u.isAllocated = true := by
          cases hval : u.isAllocated
          · exact absurd hval hb
          · rfl
        have h1 := wf_markFreed h hg halloc
        have h2 := wf_tryMergePrev h1 i
        have h3 := wf_tryMergeNext h2 (tryMergePrev (markFreed st i) i).2
        have hok : tryMergeNext (tryMergePrev (markFreed st i) i).1
            (tryMergePrev (markFreed st i) i).2 = st2 := by
          exact Except.ok.inj hr
        rw [← hok]
        exact h3

theorem uids_lt_counter {st : HeapState} (h : WF st) :
    ∀ x ∈ uidsOf st.units, x < st.uidCounter := by
  intro x hx
  obtain ⟨v, hv, rfl⟩ := List.mem_map.mp hx
  exact h.fresh v hv

theorem wf_splitMemoryUnit {st : HeapState} (h : WF st) (i s : Nat) :
    WF (splitMemoryUnit st i s) := by
  unfold splitMemoryUnit
  split
  case h_1 => exact h
  case h_2 u hg =>
    split
    case isFalse => exact h
    case isTrue hcond =>
      obtain ⟨l1, l2, heq, huid, -⟩ := getUnit_decomp hg
      obtain ⟨hne1, hne2⟩ := decomp_uid_facts h heq
      have hne1i : ∀ v ∈ l1, v.uid ≠ i := fun v hv => huid ▸ hne1 v hv
      have hlt := uids_lt_counter h
      rw [heq] at hlt
      have humem : u ∈ st.units := heq ▸ List.mem_append_right _ (List.mem_cons_self _ _)
      have hunits : splitUnits st.uidCounter i s st.units
          = l1 ++ { u with size := s, isNextContiguousMemory := true }
              :: HeapUnit.make st.uidCounter (u.size - s - sizeofMemoryUnitHeader)
                  u.isNextContiguousMemory :: l2 := by
        rw [heq]
        exact splitUnits_decomp st.uidCounter i s l1 l2 u hne1i huid
      have hfl_lt : ∀ j ∈ st.freeList, j < st.uidCounter := by
        intro j hj
        obtain ⟨v, hv, hvid, -⟩ := h.freeSub j hj
        exact hvid ▸ h.fresh v hv
      obtain ⟨nd, ndf, fs, fc, fr, hcons, hcnt⟩ := h
      rw [heq] at nd
      refine ⟨?_, ?_, ?_, ?_, ?_, ?_, ?_⟩
      · show (uidsOf (splitUnits st.uidCounter i s st.units)).Nodup
        rw [hunits]
        simp only [uidsOf_append, uidsOf_cons, HeapUnit.make]
        simp only [uidsOf_append, uidsOf_cons] at nd
        refine nodup_insert_after nd ?_
        intro hmem
        have := hlt st.uidCounter (by simpa using hmem)
        omega
      · show (addToFreeUnits st.uidCounter st.freeList).Nodup
        rw [addToFreeUnits, List.nodup_cons]
        exact ⟨fun hmem => absurd (hfl_lt _ hmem) (by omega), ndf⟩
      · intro j hj
        rcases List.mem_cons.mp hj with rfl | hj2
        · refine ⟨HeapUnit.make st.uidCounter (u.size - s - sizeofMemoryUnitHeader)
              u.isNextContiguousMemory, ?_, rfl, rfl⟩
          show _ ∈ splitUnits st.uidCounter i s st.units
          rw [hunits]
          exact List.mem_append_right _ (List.mem_cons_of_mem _ (List.mem_cons_self _ _))
        · obtain ⟨v, hv, hvid, hvfree⟩ := fs j hj2
          show ∃ w, w ∈ splitUnits st.uidCounter i s st.units ∧ w.uid = j ∧ w.isAllocated = false
          rw [hunits]
          by_cases hvu : v.uid = u.uid
          · have hveq : v = u := uid_inj (heq ▸ nd) hv humem hvu
            refine ⟨{ u with size := s, isNextContiguousMemory := true },
              List.mem_append_right _ (List.mem_cons_self _ _), ?_, ?_⟩
            · show u.uid = j
              rw [← hvu, hvid]
            · show u.isAllocated = false
              rw [← hveq, hvfree]
          · rw [heq] at hv
            rcases mem_of_decomp_ne hv hvu with hm | hm
            · exact ⟨v, List.mem_append_left _ hm, hvid, hvfree⟩
            · exact ⟨v, List.mem_append_right _
                (List.mem_cons_of_mem _ (List.mem_cons_of_mem _ hm)), hvid, hvfree⟩
      · intro w hw hwfree
        have hw2 : w ∈ splitUnits st.uidCounter i s st.units := hw
        rw [hunits] at hw2
        clear hw
        have hw := hw2
        show w.uid ∈ st.uidCounter :: st.freeList
        rcases List.mem_append.mp hw with hm | hm
        · exact List.mem_cons_of_mem _ (fc w (heq ▸ List.mem_append_left _ hm) hwfree)
        · rcases List.mem_cons.mp hm with rfl | hm2
          · have hufree : u.isAllocated = false := hwfree
            have := fc u humem hufree
            exact List.mem_cons_of_mem _ (huid ▸ this)
          · rcases List.mem_cons.mp hm2 with rfl | hm3
            · exact List.mem_cons_self _ _
            · exact List.mem_cons_of_mem _
                (fc w (heq ▸ List.mem_append_right _ (List.mem_cons_of_mem _ hm3)) hwfree)
      · intro w hw
        have hw2 : w ∈ splitUnits st.uidCounter i s st.units := hw
        rw [hunits] at hw2
        clear hw
        have hw := hw2
        show w.uid < st.uidCounter + 1
        rcases List.mem_append.mp hw with hm | hm
        · have := fr w (heq ▸ List.mem_append_left _ hm)
          omega
        · rcases List.mem_cons.mp hm with rfl | hm2
          · have := fr u humem
            show u.uid < st.uidCounter + 1
            omega
          · rcases List.mem_cons.mp hm2 with rfl | hm3
            · show st.uidCounter < st.uidCounter + 1
              omega
            · have := fr w (heq ▸ List.mem_append_right _ (List.mem_cons_of_mem _ hm3))
              omega
      · show sizeSum (splitUnits st.uidCounter i s st.units)
            + sizeofMemoryUnitHeader * (splitUnits st.uidCounter i s st.units).length
          = st.reservedBytes
        rw [hunits]
        rw [heq] at hcons
        simp only [sizeSum_append, sizeSum_cons, List.length_append, List.length_cons,
          HeapUnit.make, sizeofMemoryUnitHeader] at hcons hcond ⊢
        omega
      · show st.nbAlloc = st.nbRelease + allocCount (splitUnits st.uidCounter i s st.units)
        rw [hunits]
        rw [heq] at hcnt
        simp [allocCount_append, allocCount_cons, HeapUnit.make] at hcnt ⊢
        omega

theorem getUnit_splitMemoryUnit_self {st : HeapState} {i : Nat} {u : HeapUnit} (s : Nat)
    (h : WF st) (hg : getUnit i st = some u) :
    ∃ u2, getUnit i (splitMemoryUnit st i s) = some u2 ∧ u2.isAllocated = u.isAllocated := by
  unfold splitMemoryUnit
  rw [hg]
  dsimp only
  by_cases hcond : sizeofMemoryUnitHeader < u.size - s
  · rw [if_pos hcond]
    obtain ⟨l1, l2, heq, huid, -⟩ := getUnit_decomp hg
    obtain ⟨hne1, -⟩ := decomp_uid_facts h heq
    have hne1i : ∀ v ∈ l1, v.uid ≠ i := fun v hv => huid ▸ hne1 v hv
    refine ⟨{ u with size := s, isNextContiguousMemory := true }, ?_, rfl⟩
    have heq2 : splitUnits st.uidCounter i s st.units
        = l1 ++ { u with size := s, isNextContiguousMemory := true }
            :: HeapUnit.make st.uidCounter (u.size - s - sizeofMemoryUnitHeader)
                u.isNextContiguousMemory :: l2 := by
      rw [heq]
      exact splitUnits_decomp st.uidCounter i s l1 l2 u hne1i huid
    exact getUnit_of_decomp heq2 hne1i huid
  · rw [if_neg hcond]
    exact ⟨u, hg, rfl⟩

theorem wf_allocAt {st : HeapState} {s j : Nat} (h : WF st)
    (hf : findFirstFit s st = some j) : WF (allocAt st j s).1 := by
  obtain ⟨fl1, fl2, hfleq, hfj, -⟩ := find?_decomp _ _ _ hf
  have hjmem : j ∈ st.freeList := by
    rw [hfleq]
    exact List.mem_append_right _ (List.mem_cons_self _ _)
  obtain ⟨u, hg, -⟩ := fitsId_some hfj
  have hufree : u.isAllocated = false := by
    obtain ⟨v, hv, hvid, hvfree⟩ := h.freeSub j hjmem
    have : v = u := uid_inj h.nodupUnits hv (getUnit_mem hg).1 (by rw [hvid, (getUnit_mem hg).2])
    rw [← this, hvfree]
  have hsplit := wf_splitMemoryUnit h j s
  obtain ⟨u2, hg2, halloc2⟩ := getUnit_splitMemoryUnit_self s h hg
  exact wf_markAllocated hsplit hg2 (halloc2.trans hufree)

theorem wf_allocate {g s : Nat} {st st2 : HeapState} {uid : Nat} (h : WF st)
    (ha : allocate g st s = .ok (st2, uid)) : WF st2 := by
  unfold allocate at ha
  by_cases hs0 : s = 0
  · rw [if_pos hs0] at ha
    exact absurd ha (by simp)
  · rw [if_neg hs0] at ha
    cases hf : findFirstFit s st with
    | some j =>
      rw [hf] at ha
      have hpair : allocAt st j s = (st2, uid) := by exact Except.ok.inj ha
      have := wf_allocAt h hf
      rw [hpair] at this
      exact this
    | none =>
      rw [hf] at ha
      dsimp only at ha
      cases hf2 : findFirstFit s (reserve g st s) with
      | some j =>
        rw [hf2] at ha
        have hpair : allocAt (reserve g st s) j s = (st2, uid) := by exact Except.ok.inj ha
        have := wf_allocAt (wf_reserve g s h) hf2
        rw [hpair] at this
        exact this
      | none =>
        rw [hf2] at ha
        exact absurd ha (by simp)

theorem wf_step {st st2 : HeapState} (h : WF st) (hs : Step st st2) : WF st2 := by
  cases hs with
  | alloc g s sa sb uid ha => exact wf_allocate h ha
  | freeOp uid s sa sb hr => exact wf_release h hr
  | grow g s sa => exact wf_reserve g s h

theorem reachable_wf {st : HeapState} (h : Reachable st) : WF st := by
  induction h with
  | init => exact wf_empty
  | step hr hs ih => exact wf_step ih hs

/-! ## Claim theorems -/

/-- C1: for every allocation request of size `s > 0` served from the current
Free List, `allocate` returns the first unit in the Free List (scanned from
the fixed list head) whose payload size, after aligning the would-be return
address, is at least `s`, and no earlier free unit in the list satisfies the
request (first-fit policy). -/
theorem allocate_first_fit (g s : Nat) (st st2 : HeapState) (uid : Nat)
    (hs : 0 < s)
    (hfit : ∃ i ∈ st.freeList, fitsId s st i = true)
    (h : allocate g st s = .ok (st2, uid)) :
    ∃ l1 l2, st.freeList = l1 ++ uid :: l2 ∧ fitsId s st uid = true
      ∧ ∀ j ∈ l1, fitsId s st j = false := by
  unfold allocate at h
  rw [if_neg (Nat.pos_iff_ne_zero.mp hs)] at h
  cases hf : findFirstFit s st with
  | none =>
    obtain ⟨i, hi, hfi⟩ := hfit
    unfold findFirstFit at hf
    rw [List.find?_eq_none] at hf
    exact absurd hfi (by simp [hf i hi])
  | some j =>
    rw [hf] at h
    have hpair : allocAt st j s = (st2, uid) := Except.ok.inj h
    have huid : j = uid := by simpa [allocAt] using congrArg Prod.snd hpair
    subst huid
    unfold findFirstFit at hf
    obtain ⟨l1, l2, heq, hfj, hl1⟩ := find?_decomp _ _ _ hf
    exact ⟨l1, l2, heq, hfj, hl1⟩

/-- Witness for C1: in the one-unit state `demoReserve`, a 7-byte request is
served by unit 0, the first (and only) entry of the Free List. -/
theorem allocate_first_fit_witness :
    ∃ l1 l2, demoReserve.freeList = l1 ++ 0 :: l2 ∧ fitsId 7 demoReserve 0 = true
      ∧ ∀ j ∈ l1, fitsId 7 demoReserve j = false :=
  allocate_first_fit 16 7 demoReserve
    ⟨[⟨0, 7, true, true⟩, ⟨1, 45, false, false⟩], [1], 2, 148, 1, 0⟩ 0
    (by decide) ⟨0, by decide, by decide⟩ rfl

/-- C2: when the chosen free unit's leftover beyond the requested size `s`
exceeds one header, `splitMemoryUnit` gives the head payload size exactly `s`
(the head is the unit subsequently marked allocated and returned by
`allocate`) and inserts a tail unit of size `original - s - headerSize` into
the Unit List (right after the head) and into the Free List; in particular a
1000-byte unit serving a 32-byte request leaves a free unit of size
`1000 - 32 - headerSize` (the witness below). -/
theorem splitMemoryUnit_spec (st : HeapState) (s : Nat) (u : HeapUnit) (l1 l2 : List HeapUnit)
    (heq : st.units = l1 ++ u :: l2) (hl1 : ∀ v ∈ l1, v.uid ≠ u.uid)
    (hsize : sizeofMemoryUnitHeader < u.size - s) :
    (splitMemoryUnit st u.uid s).units
        = l1 ++ { u with size := s, isNextContiguousMemory := true }
            :: HeapUnit.make st.uidCounter (u.size - s - sizeofMemoryUnitHeader)
                u.isNextContiguousMemory :: l2
      ∧ (splitMemoryUnit st u.uid s).freeList = addToFreeUnits st.uidCounter st.freeList
      ∧ (HeapUnit.make st.uidCounter (u.size - s - sizeofMemoryUnitHeader)
            u.isNextContiguousMemory).size = u.size - s - sizeofMemoryUnitHeader
      ∧ (HeapUnit.make st.uidCounter (u.size - s - sizeofMemoryUnitHeader)
            u.isNextContiguousMemory).isAllocated = false := by
  have hg : getUnit u.uid st = some u := getUnit_of_decomp heq hl1 rfl
  unfold splitMemoryUnit
  rw [hg]
  dsimp only
  rw [if_pos hsize]
  refine ⟨?_, rfl, rfl, rfl⟩
  show splitUnits st.uidCounter u.uid s st.units = _
  rw [heq]
  exact splitUnits_decomp st.uidCounter u.uid s l1 l2 u hl1 rfl

/-- Witness for C2: a 1000-byte unit serving a 32-byte request splits into an
exact 32-byte head and a free tail of `1000 - 32 - headerSize` bytes. -/
theorem splitMemoryUnit_spec_witness :
    (splitMemoryUnit splitDemo 0 32).units
        = [⟨0, 32, true, false⟩,
           HeapUnit.make 1 (1000 - 32 - sizeofMemoryUnitHeader) false]
      ∧ (splitMemoryUnit splitDemo 0 32).freeList = addToFreeUnits 1 splitDemo.freeList
      ∧ (HeapUnit.make 1 (1000 - 32 - sizeofMemoryUnitHeader) false).size
          = 1000 - 32 - sizeofMemoryUnitHeader
      ∧ (HeapUnit.make 1 (1000 - 32 - sizeofMemoryUnitHeader) false).isAllocated = false :=
  splitMemoryUnit_spec splitDemo 32 ⟨0, 1000, false, false⟩ [] [] rfl
    (by simp) (by decide)

/-- C3: under the preconditions that `a` and `b` are both free, `b` is the
unit following `a` in the Unit List (`a.nextUnit == b`), and
`a.isNextContiguousMemory` holds, `mergeUnits a b` grows `a` by
`headerSize + b.size`, makes `a` adjacent to `b`'s former successor in the
Unit List (the reciprocal back-link being implicit in list adjacency),
removes `b` from the Free List, and gives `a` the former contiguity flag of
`b`. -/
theorem mergeUnits_spec (st : HeapState) (a b : HeapUnit) (l1 l2 : List HeapUnit)
    (heq : st.units = l1 ++ a :: b :: l2) (hl1 : ∀ v ∈ l1, v.uid ≠ a.uid)
    (hfa : a.isAllocated = false) (hfb : b.isAllocated = false)
    (hcontig : a.isNextContiguousMemory = true) :
    (mergeUnits st a.uid b.uid).units
        = l1 ++ { a with size := a.size + sizeofMemoryUnitHeader + b.size,
                         isNextContiguousMemory := b.isNextContiguousMemory } :: l2
      ∧ b.uid ∉ (mergeUnits st a.uid b.uid).freeList := by
  refine ⟨?_, ?_⟩
  · show mergeUnitsAux a.uid st.units = _
    rw [heq]
    exact mergeUnitsAux_decomp a.uid l1 l2 a b hl1 rfl
  · intro hmem
    have hmem2 : b.uid ∈ removeFromFreeUnits b.uid st.freeList := hmem
    rcases mem_removeFromFreeUnits.mp hmem2 with ⟨-, hne⟩
    exact hne rfl

/-- Witness for C3: merging the two adjacent free contiguous 64-byte units of
`mergeDemo` yields one unit of `64 + headerSize + 64` bytes and removes
unit 1 from the Free List. -/
theorem mergeUnits_spec_witness :
    (mergeUnits mergeDemo 0 1).units
        = [{ uid := 0, size := 64 + sizeofMemoryUnitHeader + 64,
             isNextContiguousMemory := false, isAllocated := false }]
      ∧ (1 : Nat) ∉ (mergeUnits mergeDemo 0 1).freeList :=
  mergeUnits_spec mergeDemo ⟨0, 64, true, false⟩ ⟨1, 64, false, false⟩ [] []
    rfl (by simp) rfl rfl rfl

/-- C4: after carving two 64-byte units `A` and `B` out of a single
`128 + headerSize` reservation and releasing both, in either order, the Free
List holds exactly one unit, it covers both payload ranges plus the absorbed
header (`size = 128 + headerSize`), and the two release orders end in the
same state. -/
theorem coalescing_release_order_irrelevant :
    coalesceFreeAB = coalesceFreeBA
      ∧ coalesceFreeAB.freeList = [0]
      ∧ coalesceFreeAB.units
          = [{ uid := 0, size := 128 + sizeofMemoryUnitHeader,
               isNextContiguousMemory := false, isAllocated := false }] := by
  decide

/-- C5: in every reachable state, a unit is in the Free List exactly when its
`isAllocated` flag is false (the internal split/merge/add/remove operations
occur inside the `Step` operations at their call sites). -/
theorem freeList_iff_unallocated (st : HeapState) (h : Reachable st) (uid : Nat) :
    uid ∈ st.freeList ↔ ∃ u ∈ st.units, u.uid = uid ∧ u.isAllocated = false := by
  have hw := reachable_wf h
  constructor
  · intro hm
    obtain ⟨u, hu, huid, hfree⟩ := hw.freeSub uid hm
    exact ⟨u, hu, huid, hfree⟩
  · rintro ⟨u, hu, huid, hfree⟩
    have := hw.freeComplete u hu hfree
    rwa [huid] at this

/-- Witness for C5: the reachable one-reservation state `demoReserve`
satisfies the Free-List membership equivalence at unit 0. -/
theorem freeList_iff_unallocated_witness :
    0 ∈ demoReserve.freeList ↔ ∃ u ∈ demoReserve.units, u.uid = 0 ∧ u.isAllocated = false :=
  freeList_iff_unallocated demoReserve
    (Reachable.step Reachable.init (Step.grow 16 100 emptyHeap)) 0

/-- C6: `allocate` has precondition `size > 0`; for a zero-size request it
fails with the InvalidArgument assertion fault instead of returning a
pointer. -/
theorem allocate_zero_assertion_fault (g : Nat) (st : HeapState) :
    allocate g st 0 = .error AllocFault.invalidArgument := rfl

/-- C7: in any reachable state with no outstanding allocation, the total free
bytes equal the total reserved bytes minus the header overhead, and the debug
allocate-call counter equals the release-call counter. -/
theorem balance_property (st : HeapState) (h : Reachable st)
    (hout : ∀ u ∈ st.units, u.isAllocated = false) :
    freeMemorySize st = st.reservedBytes - totalHeaderSize st
      ∧ st.nbAlloc = st.nbRelease := by
  have hw := reachable_wf h
  have hfilter : st.units.filter (fun u => !u.isAllocated) = st.units :=
    List.filter_eq_self.mpr (fun u hu => by simp [hout u hu])
  have hcnt0 : allocCount st.units = 0 := by
    unfold allocCount
    rw [List.countP_eq_zero]
    intro u hu
    simp [hout u hu]
  have hcons := hw.conservation
  have hc := hw.counters
  constructor
  · unfold freeMemorySize totalHeaderSize
    rw [hfilter]
    unfold sizeSum at hcons
    simp only [sizeofMemoryUnitHeader] at hcons ⊢
    omega
  · omega

/-- Witness for C7: the reachable one-reservation state `demoReserve` has no
outstanding allocation, and satisfies the balance equalities. -/
theorem balance_property_witness :
    freeMemorySize demoReserve = demoReserve.reservedBytes - totalHeaderSize demoReserve
      ∧ demoReserve.nbAlloc = demoReserve.nbRelease :=
  balance_property demoReserve
    (Reachable.step Reachable.init (Step.grow 16 100 emptyHeap)) (by decide)

/-- C8: for every pair of integer shape-type tags with `type1 > type2`, the
narrow-phase dispatch returns the null algorithm, regardless of the shapes
involved. -/
theorem selectAlgorithm_reversed_none (type1 type2 : Nat) (h : type1 > type2) :
    selectAlgorithm type1 type2 = none := by
  unfold selectAlgorithm
  rw [if_pos h]

/-- Witness for C8: the reversed pair (CONVEX_MESH, SPHERE) yields the null
algorithm. -/
theorem selectAlgorithm_reversed_none_witness :
    selectAlgorithm CollisionShapeType.CONVEX_MESH.toNat CollisionShapeType.SPHERE.toNat
      = none :=
  selectAlgorithm_reversed_none _ _ (by decide)

/-- C9: the dispatch agrees with the spec's table on every pair of shape-type
tags: sphere-sphere for (SPHERE, SPHERE), sphere-convex for SPHERE against a
convex shape of larger-or-equal ordinal, and the null algorithm for every
other pair. -/
theorem selectAlgorithm_matches_spec_table :
    ∀ t1 t2 : CollisionShapeType, selectAlgorithmOnShapes t1 t2 = specDispatch t1 t2 := by
  intro t1 t2
  cases t1 <;> cases t2 <;> rfl

/-- C10: every newly constructed memory-unit header has `isAllocated = false`,
whatever constructor arguments are supplied — both for the source
`MemoryUnitHeader` constructor (whose member-initialiser list omits
`isAllocated`, leaving the default `false`) and for the model units created
by `reserve` and `splitMemoryUnit`. -/
theorem header_constructed_free :
    (∀ (size : Nat) (prevU nextU prevFU nextFU : Option Nat) (contig : Bool),
        (MemoryUnitHeader.make size prevU nextU prevFU nextFU contig).isAllocated = false)
      ∧ (∀ (uid size : Nat) (contig : Bool),
        (HeapUnit.make uid size contig).isAllocated = false) :=
  ⟨fun _ _ _ _ _ _ => rfl, fun _ _ _ => rfl⟩

end RP3D
